import Mathlib

/-!
Shallow embedding of the PDF manager's mutation engine
(`src/utils/pdf_editor.py`, `src/utils/pdf_security.py`) in Lean 4.

Documents are modelled as ordered lists of pages; each page carries its
dimensions, its `/Rotate` value, the content-stream operators appended by
the editor, and its annotation list.  The PyMuPDF (`fitz`) library is
modelled at its interface: `load_page` resolves negative indices from the
end of the document, `Document.save` refuses a document with zero pages,
and the standard-encryption layer authenticates a password against the
user and owner password slots.  Fallible operations return
`Except PdfError _`; a Python exception wrapped into `ValueError` keeps
its originating kind.
-/

namespace PdfApp

/-- Error kinds produced by the code paths modelled here, plus the kinds the
specification names (`emptyInput`, `invalidParameter`, `pageIndexOutOfRange`)
so that claims about them can be stated. -/
inductive PdfError
  | saveZeroPages
  | pageNotInDocument
  | incorrectPassword
  | corruptDocument
  | divisionByZero
  | documentEncrypted
  | emptyInput
  | invalidParameter
  | pageIndexOutOfRange
  deriving DecidableEq, Repr

/-- An RGB color with components in [0,1], as passed to fitz drawing calls. -/
structure RGB where
  r : ℚ
  g : ℚ
  b : ℚ
  deriving DecidableEq, Repr

/-- Value of one hexadecimal digit, as Python's `int(_, 16)` reads it. -/
def hexDigit (c : Char) : Nat :=
  if '0' ≤ c ∧ c ≤ '9' then c.toNat - 48
  else if 'a' ≤ c ∧ c ≤ 'f' then c.toNat - 87
  else if 'A' ≤ c ∧ c ≤ 'F' then c.toNat - 55
  else 0

/-- One color component from two hex digits of a `#RRGGBB` string:
`int(color[i:i+2], 16) / 255.0`. -/
def hexByte (s : String) (i : Nat) : ℚ :=
  ((hexDigit (s.toList.getD i '0') * 16 + hexDigit (s.toList.getD (i+1) '0') : Nat) : ℚ) / 255

/-- `tuple(int(color[i:i+2], 16)/255.0 for i in (1, 3, 5))`. -/
def hexToRgb (s : String) : RGB :=
  ⟨hexByte s 1, hexByte s 3, hexByte s 5⟩

/-- A content-stream operator appended by the editor. -/
inductive ContentOp
  | text (x y : ℚ) (s : String) (fontsize : ℚ) (color : RGB) (fontname : String) (rotate : Int)
  | image (x0 y0 x1 y1 : ℚ)
  deriving DecidableEq, Repr

/-- An annotation attached to a page (only the kinds the claims touch). -/
inductive Annot
  | highlight (x0 y0 x1 y1 : ℚ) (stroke fill : RGB)
  deriving DecidableEq, Repr

/-- One PDF page: dimensions in points, `/Rotate` value, content operators,
annotations. -/
structure Page where
  width : ℚ
  height : ℚ
  rotation : Int
  ops : List ContentOp
  annots : List Annot
  deriving DecidableEq, Repr

/-- An in-memory PDF document: the ordered page list. -/
structure PDFDoc where
  pages : List Page
  deriving DecidableEq, Repr

/-- Replace the element at position `i` by `f` of it; out-of-range is a no-op. -/
def updateAt (xs : List α) (i : Nat) (f : α → α) : List α :=
  match xs, i with
  | [], _ => []
  | x :: xs, 0 => f x :: xs
  | x :: xs, Nat.succ i => x :: updateAt xs i f

/-- fitz `Document.save`: raises `ValueError("cannot save with zero pages")`
on an empty document, otherwise serializes (modelled as the document itself). -/
def saveDoc (d : PDFDoc) : Except PdfError PDFDoc :=
  if d.pages.length < 1 then .error .saveZeroPages else .ok d

/-- fitz `Document.load_page(n)`: a negative `n` counts from the end of the
document; an index outside `[-pageCount, pageCount)` raises
"page not in document". -/
def loadPageIdx (count : Nat) (n : Int) : Option Nat :=
  if 0 ≤ n ∧ n < (count : Int) then some n.toNat
  else if -(count : Int) ≤ n ∧ n < 0 then some (n + count).toNat
  else none

namespace PDFEditor

/-- `PDFEditor.add_text`: if `page_num < len(doc)` the text operator is
inserted on the loaded page, otherwise the document is saved unchanged. -/
def add_text (doc : PDFDoc) (text : String) (page_num : Int) (x y : ℚ)
    (font_size : ℚ) (color : String) : Except PdfError PDFDoc :=
  if page_num < (doc.pages.length : Int) then
    match loadPageIdx doc.pages.length page_num with
    | some i =>
        saveDoc { pages := updateAt doc.pages i (fun p =>
          { p with ops := p.ops ++
              [ContentOp.text x y text font_size (hexToRgb color) "helv" 0] }) }
    | none => .error .pageNotInDocument
  else saveDoc doc

/-- `PDFEditor.add_image`: same guard shape as `add_text`; the image is drawn
into the rect `(x, y, x + width, y + height)`. -/
def add_image (doc : PDFDoc) (page_num : Int) (x y width height : ℚ) :
    Except PdfError PDFDoc :=
  if page_num < (doc.pages.length : Int) then
    match loadPageIdx doc.pages.length page_num with
    | some i =>
        saveDoc { pages := updateAt doc.pages i (fun p =>
          { p with ops := p.ops ++ [ContentOp.image x y (x + width) (y + height)] }) }
    | none => .error .pageNotInDocument
  else saveDoc doc

/-- `PDFEditor.add_highlight`: same guard shape; appends a highlight
annotation with stroke and fill set to the given color. -/
def add_highlight (doc : PDFDoc) (page_num : Int) (x0 y0 x1 y1 : ℚ)
    (color : String) : Except PdfError PDFDoc :=
  if page_num < (doc.pages.length : Int) then
    match loadPageIdx doc.pages.length page_num with
    | some i =>
        saveDoc { pages := updateAt doc.pages i (fun p =>
          { p with annots := p.annots ++
              [Annot.highlight x0 y0 x1 y1 (hexToRgb color) (hexToRgb color)] }) }
    | none => .error .pageNotInDocument
  else saveDoc doc

/-- `PDFEditor.rotate_pages`: iterates the 1-indexed `page_numbers`
(defaulting to all pages), and on each in-range one calls fitz
`Page.set_rotation(rotation_angle)`, which stores the `/Rotate` value
normalized to `[0, 360)` (PyMuPDF normalizes the stored/read rotation). -/
def rotate_pages (doc : PDFDoc) (rotation_angle : Int)
    (page_numbers : Option (List Int)) : Except PdfError PDFDoc :=
  let pns := page_numbers.getD ((List.range doc.pages.length).map (fun i : Nat => (i : Int) + 1))
  saveDoc { pages := pns.foldl (fun ps pn =>
      if 1 ≤ pn ∧ pn ≤ (doc.pages.length : Int) then
        updateAt ps (pn - 1).toNat (fun p => { p with rotation := rotation_angle % 360 })
      else ps) doc.pages }

/-- `PDFEditor.rearrange_pages`: builds a fresh document, appending original
page `pn - 1` for each in-range entry `pn` of `new_order` (out-of-range
entries are skipped by the guard), then saves the new document. -/
def rearrange_pages (doc : PDFDoc) (new_order : List Int) : Except PdfError PDFDoc :=
  saveDoc { pages := new_order.foldl (fun ps pn =>
      if 1 ≤ pn ∧ pn ≤ (doc.pages.length : Int) then
        ps ++ (doc.pages[(pn - 1).toNat]?).toList
      else ps) [] }

/-- `PDFEditor.merge_pdfs`: starts from an empty document, appends every
input's pages in order (`insert_pdf`), then saves. -/
def merge_pdfs (pdf_files : List PDFDoc) : Except PdfError PDFDoc :=
  saveDoc { pages := pdf_files.foldl (fun ps d => ps ++ d.pages) [] }

/-- The text operator `add_watermark` inserts on a page: centered, gray
`(0.7, 0.7, 0.7)`, bold Helvetica, rotated.  The `opacity` parameter of the
watermark functions is not consulted anywhere. -/
def watermarkOp (p : Page) (text : String) (font_size : ℚ) (rotation : Int) : ContentOp :=
  ContentOp.text (p.width / 2) (p.height / 2) text font_size ⟨7/10, 7/10, 7/10⟩ "helv-bo" rotation

/-- `PDFEditor.add_watermark`: loops over all pages and inserts the gray
centered text operator; `opacity` is accepted but never used. -/
def add_watermark (doc : PDFDoc) (watermark_text : String) (opacity : ℚ)
    (font_size : ℚ) (rotation : Int) : Except PdfError PDFDoc :=
  saveDoc ⟨(List.range doc.pages.length).foldl (fun ps page_num =>
      updateAt ps page_num (fun p =>
        { p with ops := p.ops ++ [watermarkOp p watermark_text font_size rotation] }))
    doc.pages⟩

/-- `PDFEditor.add_watermark_with_preview`: same operator on the selected
1-indexed pages; the guard is only `page_num - 1 < len(doc)`, so a negative
resolved index reaches `load_page`; `opacity` is accepted but never used. -/
def add_watermark_with_preview (doc : PDFDoc) (watermark_text : String)
    (pages : List Int) (opacity : ℚ) (font_size : ℚ) (rotation : Int) :
    Except PdfError PDFDoc := do
  let ps ← pages.foldlM (fun ps pn =>
    if pn - 1 < (doc.pages.length : Int) then
      match loadPageIdx doc.pages.length (pn - 1) with
      | some i => Except.ok (updateAt ps i (fun p =>
          { p with ops := p.ops ++ [watermarkOp p watermark_text font_size rotation] }))
      | none => Except.error PdfError.pageNotInDocument
    else Except.ok ps) doc.pages
  saveDoc { pages := ps }

/-- The anchor coordinates `add_page_numbers` computes from its `position`
string on a page of width `w` and height `h`; any unrecognized string falls
through to the final `else`, the bottom-right coordinates. -/
def pageNumberXY (position : String) (w h : ℚ) : ℚ × ℚ :=
  if position = "bottom_right" then (w - 50, h - 30)
  else if position = "bottom_left" then (30, h - 30)
  else if position = "top_right" then (w - 50, 30)
  else if position = "top_left" then (30, 30)
  else if position = "bottom_center" then (w / 2, h - 30)
  else (w - 50, h - 30)

/-- `PDFEditor.add_page_numbers`: stamps `str(page_num + start_number)` on
every page (0-indexed `page_num`) at the anchor chosen by `position`. -/
def add_page_numbers (doc : PDFDoc) (position : String) (font_size : ℚ)
    (start_number : Int) : Except PdfError PDFDoc :=
  saveDoc ⟨(List.range doc.pages.length).foldl (fun ps page_num =>
      updateAt ps page_num (fun p =>
        let xy := pageNumberXY position p.width p.height
        { p with ops := p.ops ++
            [ContentOp.text xy.1 xy.2 (toString ((page_num : Int) + start_number))
              font_size ⟨0, 0, 0⟩ "helv" 0] }))
    doc.pages⟩

end PDFEditor

/-- Encryption methods known to `PDFSecurity.encryption_methods`. -/
inductive EncMethod
  | aes128
  | aes256
  | rc4_40
  | rc4_128
  deriving DecidableEq, Repr

/-- The standard-encryption state fitz records when a document is saved with
`user_pw`/`owner_pw`/`permissions`.  A password authenticates if it matches
either the user or the owner slot. -/
structure EncState where
  method : EncMethod
  userPw : String
  ownerPw : String
  perms : Nat
  deriving DecidableEq, Repr

/-- A document as the security component sees it: pages plus encryption
state.  (The empty password's auto-authentication quirk is not modelled;
passwords are opaque secrets.) -/
structure SecDoc where
  pages : List Page
  encryption : Option EncState
  deriving DecidableEq, Repr

namespace PDFSecurity

/-- `self.encryption_methods`: name → fitz encryption constant. -/
def encryption_methods : List (String × EncMethod) :=
  [("AES_128", EncMethod.aes128), ("AES_256", EncMethod.aes256),
   ("RC4_40", EncMethod.rc4_40), ("RC4_128", EncMethod.rc4_128)]

/-- `self.permission_flags`: name → fitz permission bit
(`PDF_PERM_PRINT = 4`, `PDF_PERM_COPY = 16`, `PDF_PERM_ANNOTATE = 32`,
`PDF_PERM_FORM = 256`, `PDF_PERM_ACCESSIBILITY = 512`,
`PDF_PERM_ASSEMBLE = 1024`, `PDF_PERM_PRINT_HQ = 2048`). -/
def permission_flags : List (String × Nat) :=
  [("print", 4), ("copy", 16), ("annotate", 32), ("form", 256),
   ("accessibility", 512), ("assemble", 1024), ("print_high", 2048)]

/-- Result record of `PDFSecurity.add_password`. -/
structure ProtectResult where
  doc : SecDoc
  methodName : String
  permissions : List String
  deriving DecidableEq, Repr

/-- `PDFSecurity.add_password`: owner password defaults to the user password;
permissions default to `['print', 'copy', 'annotate']`; names missing from
`permission_flags` contribute nothing to the bitmask; an unknown method
string falls back to AES-256.  Saving fails on an already-encrypted input
("document closed or encrypted") or a zero-page document. -/
def add_password (doc : SecDoc) (user_password : String)
    (owner_password : Option String) (encryption_method : String)
    (permissions : Option (List String)) : Except PdfError ProtectResult :=
  if doc.encryption.isSome then Except.error PdfError.documentEncrypted
  else
    let owner_pw := owner_password.getD user_password
    let perms := permissions.getD ["print", "copy", "annotate"]
    let perm_flags := perms.foldl (fun acc perm =>
        match permission_flags.lookup perm with
        | some f => acc ||| f
        | none => acc) 0
    let encrypt_method := (encryption_methods.lookup encryption_method).getD EncMethod.aes256
    if doc.pages.length < 1 then Except.error PdfError.saveZeroPages
    else Except.ok
      { doc := { pages := doc.pages,
                 encryption := some ⟨encrypt_method, user_password, owner_pw, perm_flags⟩ },
        methodName := encryption_method,
        permissions := perms }

/-- Result record of `PDFSecurity.remove_password`. -/
structure UnlockResult where
  doc : SecDoc
  status : String
  deriving DecidableEq, Repr

/-- `PDFSecurity.remove_password`: if the document needs a password,
authenticate against the user and owner slots, raising
"Incorrect password provided" on failure; then save without encryption. -/
def remove_password (doc : SecDoc) (password : String) : Except PdfError UnlockResult :=
  match doc.encryption with
  | some e =>
      if password = e.userPw ∨ password = e.ownerPw then
        if doc.pages.length < 1 then Except.error PdfError.saveZeroPages
        else Except.ok { doc := { pages := doc.pages, encryption := none },
                         status := "Password removed successfully" }
      else Except.error PdfError.incorrectPassword
  | none =>
      if doc.pages.length < 1 then Except.error PdfError.saveZeroPages
      else Except.ok { doc := { pages := doc.pages, encryption := none },
                       status := "Password removed successfully" }

end PDFSecurity

/-- Interface model of fitz parsing and compressing for
`PDFSecurity.compress_pdf`: whether `fitz.open(stream=..)` succeeds on the
given bytes, and the bytes `doc.save(output, **settings)` produces for a
compression level.  `fitz.open` always fails on an empty stream
("cannot open empty document"), recorded as `parse_empty_fails`. -/
structure FitzCompressor where
  parseOk : List Nat → Bool
  compressOut : String → List Nat → List Nat
  parse_empty_fails : parseOk [] = false

/-- Round to the nearest integer, ties to even — Python's `round` on an
exactly-represented value. -/
def roundHalfEven (q : ℚ) : Int :=
  if Int.fract q < 1/2 then ⌊q⌋
  else if 1/2 < Int.fract q then ⌊q⌋ + 1
  else if ⌊q⌋ % 2 = 0 then ⌊q⌋ else ⌊q⌋ + 1

/-- Python `round(q, 2)`. -/
def round2 (q : ℚ) : ℚ := ((roundHalfEven (q * 100) : ℚ)) / 100

/-- The `compression_info` record `PDFSecurity.compress_pdf` returns. -/
structure CompressionInfo where
  original_size : Nat
  compressed_size : Nat
  compression_ratio : ℚ
  compression_level : String
  deriving DecidableEq, Repr

namespace PDFSecurity

/-- `PDFSecurity.compress_pdf`: opens the stream (raising on failure),
takes `original_size = len(pdf_file.getvalue())`, saves with the level's
settings, and computes `(1 - compressed_size / original_size) * 100`
rounded to 2 decimals — a `ZeroDivisionError` if `original_size == 0`.
All raised errors are wrapped into the function's `ValueError`. -/
def compress_pdf (io : FitzCompressor) (fileBytes : List Nat)
    (compression_level : String) : Except PdfError CompressionInfo :=
  if io.parseOk fileBytes = false then Except.error PdfError.corruptDocument
  else
    let original_size := fileBytes.length
    let compressed := io.compressOut compression_level fileBytes
    let compressed_size := compressed.length
    if original_size = 0 then Except.error PdfError.divisionByZero
    else Except.ok
      { original_size := original_size
        compressed_size := compressed_size
        compression_ratio :=
          round2 ((1 - (compressed_size : ℚ) / (original_size : ℚ)) * 100)
        compression_level := compression_level }

end PDFSecurity

/-- Interface model of Python's `hashlib`: one hex-digest function per
algorithm, each a pure function of the input bytes. -/
structure HashLib where
  md5 : List Nat → String
  sha1 : List Nat → String
  sha256 : List Nat → String
  sha512 : List Nat → String

/-- The record `PDFSecurity.generate_file_hash` returns. -/
structure HashResult where
  hash : String
  algorithm : String
  file_size : Nat
  filename : String
  deriving DecidableEq, Repr

namespace PDFSecurity

/-- `PDFSecurity.generate_file_hash`: if `algorithm` is not a key of
`hash_algorithms`, it is replaced by `'sha256'`; the chosen digest of the
file's bytes is returned together with the (possibly substituted)
algorithm name.  No failure path exists. -/
def generate_file_hash (H : HashLib) (content : List Nat) (name : String)
    (algorithm : String) : HashResult :=
  let algo := if algorithm = "md5" ∨ algorithm = "sha1" ∨ algorithm = "sha256" ∨
                 algorithm = "sha512" then algorithm else "sha256"
  let digest :=
    if algo = "md5" then H.md5 content
    else if algo = "sha1" then H.sha1 content
    else if algo = "sha256" then H.sha256 content
    else H.sha512 content
  { hash := digest, algorithm := algo, file_size := content.length, filename := name }

end PDFSecurity

instance {ε α : Type} [DecidableEq ε] [DecidableEq α] : DecidableEq (Except ε α) := fun x y =>
  match x, y with
  | .ok a, .ok b =>
      if h : a = b then isTrue (by rw [h]) else isFalse (by intro he; cases he; exact h rfl)
  | .error a, .error b =>
      if h : a = b then isTrue (by rw [h]) else isFalse (by intro he; cases he; exact h rfl)
  | .ok _, .error _ => isFalse (by intro h; cases h)
  | .error _, .ok _ => isFalse (by intro h; cases h)

/-- A US-letter page with no content and no rotation. -/
def pageA : Page := { width := 612, height := 792, rotation := 0, ops := [], annots := [] }

/-- A one-page document. -/
def docOne : PDFDoc := { pages := [pageA] }

/-- A two-page document whose second page is rotated 180°. -/
def docTwo : PDFDoc := { pages := [pageA, { pageA with rotation := 180 }] }

/-- A three-page document with three distinguishable pages. -/
def docThree : PDFDoc :=
  { pages := [pageA, { pageA with rotation := 90 }, { pageA with rotation := 180 }] }

/-- A one-page unencrypted document for the security component. -/
def secDocOne : SecDoc := { pages := [pageA], encryption := none }

/-- A concrete instance of the fitz parse/compress interface: parsing
succeeds exactly on non-empty byte strings and "compressing" doubles the
bytes (compression may increase size). -/
def exCompressor : FitzCompressor where
  parseOk := fun bs => !bs.isEmpty
  compressOut := fun _ bs => bs ++ bs
  parse_empty_fails := rfl

/-- A concrete instance of the hashlib interface with distinguishable
digests. -/
def exHashLib : HashLib where
  md5 := fun _ => "MD5"
  sha1 := fun _ => "SHA1"
  sha256 := fun _ => "SHA256"
  sha512 := fun _ => "SHA512"

/-- `updateAt` preserves length. -/
theorem length_updateAt (xs : List α) (i : Nat) (f : α → α) :
    (updateAt xs i f).length = xs.length := by
  induction xs generalizing i with
  | nil => rfl
  | cons x xs ih =>
    cases i with
    | zero => rfl
    | succ i => simp [updateAt, ih]

/-- Element lookup after `updateAt`: position `i` is mapped by `f`, all
other positions are untouched. -/
theorem getElem?_updateAt (xs : List α) (i j : Nat) (f : α → α) :
    (updateAt xs i f)[j]? = if j = i then (xs[j]?).map f else xs[j]? := by
  induction xs generalizing i j with
  | nil => simp [updateAt]
  | cons x xs ih =>
    cases i with
    | zero =>
      cases j with
      | zero => simp [updateAt]
      | succ j => simp [updateAt]
    | succ i =>
      cases j with
      | zero => simp [updateAt]
      | succ j => simpa [updateAt] using ih i j

/-- Folding `updateAt` over `List.range' a k` maps every position in
`[a, a + k)` by its own update function and leaves the rest untouched. -/
theorem foldl_updateAt_range (f : Nat → α → α) :
    ∀ (k a : Nat) (ps : List α) (j : Nat),
      ((List.range' a k).foldl (fun l i => updateAt l i (f i)) ps)[j]? =
        if a ≤ j ∧ j < a + k then (ps[j]?).map (f j) else ps[j]? := by
  intro k
  induction k with
  | zero => intro a ps j; simp; rw [if_neg (by omega)]
  | succ k ih =>
    intro a ps j
    rw [List.range'_succ]
    simp only [List.foldl_cons]
    rw [ih (a + 1), getElem?_updateAt]
    by_cases h1 : a + 1 ≤ j ∧ j < a + 1 + k
    · rw [if_pos h1, if_neg (by omega), if_pos (by omega)]
    · rw [if_neg h1]
      by_cases h2 : j = a
      · rw [if_pos h2, if_pos (by omega), h2]
      · rw [if_neg h2, if_neg (by omega)]

/-- A fold whose step preserves list length preserves list length. -/
theorem foldl_length_preserved (step : List α → β → List α)
    (hstep : ∀ ps b, (step ps b).length = ps.length) :
    ∀ (l : List β) (ps : List α), (l.foldl step ps).length = ps.length := by
  intro l
  induction l with
  | nil => intro ps; rfl
  | cons b l ih => intro ps; rw [List.foldl_cons, ih, hstep]

/-- Folding list append equals appending the flattened mapped lists. -/
theorem foldl_append_join (g : β → List α) :
    ∀ (l : List β) (init : List α),
      l.foldl (fun acc x => acc ++ g x) init = init ++ (l.map g).flatten := by
  intro l
  induction l with
  | nil => intro init; simp
  | cons x l ih => intro init; simp [ih, List.append_assoc]

/-- Folding the guarded absolute rotation update of `rotate_pages` over a
list of 1-indexed page numbers: page `j` ends with rotation `c` exactly when
`j + 1` is listed and in range; everything else about every page is kept. -/
theorem rotate_fold_getElem (count : Nat) (c : Int) :
    ∀ (l : List Int) (ps : List Page) (j : Nat),
      ((l.foldl (fun ps pn =>
          if 1 ≤ pn ∧ pn ≤ (count : Int) then
            updateAt ps (pn - 1).toNat (fun p => { p with rotation := c })
          else ps) ps)[j]?) =
        (if ((j : Int) + 1) ∈ l ∧ j < count then
          (ps[j]?).map (fun p => { p with rotation := c })
        else ps[j]?) := by
  intro l
  induction l with
  | nil => intro ps j; simp
  | cons pn l ih =>
    intro ps j
    simp only [List.foldl_cons]
    rw [ih]
    simp only [List.mem_cons]
    by_cases hg : 1 ≤ pn ∧ pn ≤ (count : Int)
    · rw [if_pos hg, getElem?_updateAt]
      by_cases hm : ((j : Int) + 1) ∈ l ∧ j < count
      · rw [if_pos hm]
        by_cases hj : j = (pn - 1).toNat
        · rw [if_pos hj, if_pos ⟨Or.inr hm.1, hm.2⟩, Option.map_map]
          cases ps[j]? <;> rfl
        · rw [if_neg hj, if_pos ⟨Or.inr hm.1, hm.2⟩]
      · rw [if_neg hm]
        by_cases hj : j = (pn - 1).toNat
        · have hpn : (j : Int) + 1 = pn := by omega
          rw [if_pos hj, if_pos ⟨Or.inl hpn, by omega⟩]
        · rw [if_neg hj, if_neg ?_]
          rintro ⟨h1 | h1, h2⟩
          · exact hj (by omega)
          · exact hm ⟨h1, h2⟩
    · rw [if_neg hg]
      by_cases hm : ((j : Int) + 1) ∈ l ∧ j < count
      · rw [if_pos hm, if_pos ⟨Or.inr hm.1, hm.2⟩]
      · rw [if_neg hm, if_neg ?_]
        rintro ⟨h1 | h1, h2⟩
        · exact hg ⟨by omega, by omega⟩
        · exact hm ⟨h1, h2⟩

/-- C1 (amended): for a page index `pn ≥ pageCount` the PageEditor content
operations (`add_text`, `add_image`, `add_highlight`) do not fail with
`PageIndexOutOfRange`: they return the document unchanged; and a negative
index in `[-pageCount, -1)` is not rejected either — the operation succeeds,
resolving the index from the end of the document. -/
theorem claim1_out_of_range_is_silent (doc : PDFDoc) (pn : Int) (text color : String)
    (x y fs w ht x0 y0 x1 y1 : ℚ) :
    ((doc.pages.length : Int) ≤ pn → 0 < doc.pages.length →
      PDFEditor.add_text doc text pn x y fs color = .ok doc ∧
      PDFEditor.add_image doc pn x y w ht = .ok doc ∧
      PDFEditor.add_highlight doc pn x0 y0 x1 y1 color = .ok doc) ∧
    (-(doc.pages.length : Int) ≤ pn → pn < 0 →
      (∃ d, PDFEditor.add_text doc text pn x y fs color = .ok d) ∧
      (∃ d, PDFEditor.add_image doc pn x y w ht = .ok d) ∧
      (∃ d, PDFEditor.add_highlight doc pn x0 y0 x1 y1 color = .ok d)) := by
  constructor
  · intro hge hpos
    have hif : ¬ (pn < (doc.pages.length : Int)) := by omega
    have h1 : ¬ (doc.pages.length < 1) := by omega
    refine ⟨?_, ?_, ?_⟩
    · unfold PDFEditor.add_text saveDoc
      rw [if_neg hif, if_neg h1]
    · unfold PDFEditor.add_image saveDoc
      rw [if_neg hif, if_neg h1]
    · unfold PDFEditor.add_highlight saveDoc
      rw [if_neg hif, if_neg h1]
  · intro hlo hneg
    have hif : pn < (doc.pages.length : Int) := by omega
    have hload : loadPageIdx doc.pages.length pn = some (pn + doc.pages.length).toNat := by
      unfold loadPageIdx
      rw [if_neg (by omega), if_pos ⟨hlo, hneg⟩]
    have hlen : ∀ f : Page → Page,
        ¬ ((updateAt doc.pages (pn + doc.pages.length).toNat f).length < 1) := by
      intro f
      rw [length_updateAt]
      omega
    refine ⟨⟨{ pages := updateAt doc.pages (pn + doc.pages.length).toNat (fun p =>
        { p with ops := p.ops ++ [ContentOp.text x y text fs (hexToRgb color) "helv" 0] }) }, ?_⟩,
      ⟨{ pages := updateAt doc.pages (pn + doc.pages.length).toNat (fun p =>
        { p with ops := p.ops ++ [ContentOp.image x y (x + w) (y + ht)] }) }, ?_⟩,
      ⟨{ pages := updateAt doc.pages (pn + doc.pages.length).toNat (fun p =>
        { p with annots := p.annots ++
            [Annot.highlight x0 y0 x1 y1 (hexToRgb color) (hexToRgb color)] }) }, ?_⟩⟩
    · unfold PDFEditor.add_text
      rw [if_pos hif]
      simp only [hload, saveDoc]
      rw [if_neg (hlen _)]
    · unfold PDFEditor.add_image
      rw [if_pos hif]
      simp only [hload, saveDoc]
      rw [if_neg (hlen _)]
    · unfold PDFEditor.add_highlight
      rw [if_pos hif]
      simp only [hload, saveDoc]
      rw [if_neg (hlen _)]

/-- C1 (witness): on the one-page document, index 1 (= the page count)
returns the document unchanged and index -1 succeeds. -/
theorem claim1_witness :
    PDFEditor.add_text docOne "x" 1 0 0 12 "#000000" = .ok docOne ∧
    (∃ d, PDFEditor.add_highlight docOne (-1) 0 0 10 10 "#FFFF00" = .ok d) := by
  constructor
  · exact ((claim1_out_of_range_is_silent docOne 1 "x" "#000000"
      0 0 12 0 0 0 0 0 0).1 (by decide) (by decide)).1
  · exact ((claim1_out_of_range_is_silent docOne (-1) "x" "#FFFF00"
      0 0 12 0 0 0 0 10 10).2 (by decide) (by decide)).2.2

/-- C1 (counterexample): `add_text` on a 1-page document at page index 1
(which is ≥ the page count) returns the document unchanged with no error,
contradicting the claimed hard `PageIndexOutOfRange` failure. -/
theorem claim1_counterexample :
    PDFEditor.add_text docOne "x" 1 0 0 12 "#000000" = .ok docOne ∧
    (Except.ok docOne : Except PdfError PDFDoc) ≠ .error .pageIndexOutOfRange := by
  decide

/-- C2 (amended): `rotate_pages` sets each selected in-range page's rotation
absolutely to `angle mod 360` — it is not additive with the existing
rotation; unselected or out-of-range pages are untouched.  Consequently
applying `rotate(D, 90)` four times leaves every page at rotation 90, which
equals the original rotation only if that was already 90. -/
theorem claim2_rotation_is_absolute (doc : PDFDoc) (angle : Int)
    (pns : Option (List Int)) (h : 0 < doc.pages.length) :
    ∃ d, PDFEditor.rotate_pages doc angle pns = .ok d ∧
      d.pages.length = doc.pages.length ∧
      ∀ j : Nat, d.pages[j]? =
        (if ((j : Int) + 1) ∈
              pns.getD ((List.range doc.pages.length).map (fun i : Nat => (i : Int) + 1)) ∧
            j < doc.pages.length
         then (doc.pages[j]?).map (fun p => { p with rotation := angle % 360 })
         else doc.pages[j]?) := by
  unfold PDFEditor.rotate_pages
  have hlen : ∀ l : List Int,
      (l.foldl (fun ps pn =>
          if 1 ≤ pn ∧ pn ≤ (doc.pages.length : Int) then
            updateAt ps (pn - 1).toNat (fun p => { p with rotation := angle % 360 })
          else ps) doc.pages).length = doc.pages.length := by
    intro l
    refine foldl_length_preserved _ ?_ l doc.pages
    intro ps pn
    by_cases hg : 1 ≤ pn ∧ pn ≤ (doc.pages.length : Int)
    · rw [if_pos hg, length_updateAt]
    · rw [if_neg hg]
  refine ⟨PDFDoc.mk
      ((pns.getD ((List.range doc.pages.length).map (fun i : Nat => (i : Int) + 1))).foldl
        (fun ps pn =>
          if 1 ≤ pn ∧ pn ≤ (doc.pages.length : Int) then
            updateAt ps (pn - 1).toNat (fun p => { p with rotation := angle % 360 })
          else ps) doc.pages), ?_, ?_, ?_⟩
  · show saveDoc _ = _
    unfold saveDoc
    rw [if_neg (by rw [hlen]; omega)]
  · exact hlen _
  · intro j
    exact rotate_fold_getElem doc.pages.length (angle % 360) _ doc.pages j

/-- C2 (witness): rotating the one-page document by 90 succeeds and the
page count is preserved. -/
theorem claim2_witness :
    ∃ d, PDFEditor.rotate_pages docOne 90 none = .ok d ∧
      d.pages.length = docOne.pages.length := by
  obtain ⟨d, h1, h2, _⟩ := claim2_rotation_is_absolute docOne 90 none (by decide)
  exact ⟨d, h1, h2⟩

/-- C2 (counterexample): applying `rotate(D, 90)` four times to a document
whose page has rotation 0 yields rotation 90, not the original 0 — the
rotation is set absolutely, so four 90° rotations do not return a page to
its original rotation. -/
theorem claim2_counterexample :
    ((PDFEditor.rotate_pages docOne 90 none).bind fun d =>
      (PDFEditor.rotate_pages d 90 none).bind fun d =>
        (PDFEditor.rotate_pages d 90 none).bind fun d =>
          PDFEditor.rotate_pages d 90 none) =
        .ok { pages := [{ pageA with rotation := 90 }] } ∧
    ({ pages := [{ pageA with rotation := 90 }] } : PDFDoc) ≠ docOne := by
  decide

/-- Flattening singleton option-lists: length equals the index list's length
when every lookup succeeds. -/
theorem flatten_toList_length {f : β → Option α} :
    ∀ l : List β, (∀ b ∈ l, (f b).isSome) →
      (l.map (fun b => (f b).toList)).flatten.length = l.length := by
  intro l
  induction l with
  | nil => intro _; rfl
  | cons b l ih =>
    intro h
    have hb := h b (List.mem_cons_self b l)
    cases hfb : f b with
    | none => rw [hfb] at hb; cases hb
    | some a =>
      simp [hfb, ih (fun x hx => h x (List.mem_cons_of_mem _ hx))]

/-- Flattening singleton option-lists: the `k`-th element is the lookup of
the `k`-th index when every lookup succeeds. -/
theorem flatten_toList_getElem {f : β → Option α} :
    ∀ (l : List β) (k : Nat) (pn : β), (∀ b ∈ l, (f b).isSome) →
      l[k]? = some pn →
      (l.map (fun b => (f b).toList)).flatten[k]? = f pn := by
  intro l
  induction l with
  | nil => intro k pn _ hk; simp at hk
  | cons b l ih =>
    intro k pn h hk
    cases hfb : f b with
    | none =>
      have hb := h b (List.mem_cons_self b l)
      rw [hfb] at hb; cases hb
    | some a =>
      cases k with
      | zero =>
        simp only [List.getElem?_cons_zero, Option.some_inj] at hk
        subst hk
        simp [hfb]
      | succ k =>
        simp only [List.map_cons, List.flatten_cons, hfb, Option.toList_some]
        rw [List.getElem?_append_right (by simp)]
        simpa using ih k pn (fun x hx => h x (List.mem_cons_of_mem _ hx))
          (by simpa using hk)

/-- C3 (amended): `rearrange_pages` silently skips out-of-range entries
rather than failing; when every entry of `newOrder` is in `[1, pageCount]`
and `newOrder` is non-empty, the output has exactly `len(newOrder)` pages
(duplicates produce duplicate pages) and output page `k` is original page
`newOrder[k]`. -/
theorem claim3_rearrange_index_correct (doc : PDFDoc) (order : List Int)
    (hall : ∀ pn ∈ order, 1 ≤ pn ∧ pn ≤ (doc.pages.length : Int))
    (hne : order ≠ []) :
    ∃ d, PDFEditor.rearrange_pages doc order = .ok d ∧
      d.pages.length = order.length ∧
      ∀ (k : Nat) (pn : Int), order[k]? = some pn →
        d.pages[k]? = doc.pages[(pn - 1).toNat]? := by
  unfold PDFEditor.rearrange_pages
  have hstep : (fun (ps : List Page) (pn : Int) =>
      if 1 ≤ pn ∧ pn ≤ (doc.pages.length : Int) then
        ps ++ (doc.pages[(pn - 1).toNat]?).toList
      else ps) = fun ps pn => ps ++
        (if 1 ≤ pn ∧ pn ≤ (doc.pages.length : Int) then
          (doc.pages[(pn - 1).toNat]?).toList else []) := by
    funext ps pn
    split
    · rfl
    · rw [List.append_nil]
  have hmap : order.map (fun pn =>
      if 1 ≤ pn ∧ pn ≤ (doc.pages.length : Int) then
        (doc.pages[(pn - 1).toNat]?).toList else []) =
      order.map (fun pn => (doc.pages[(pn - 1).toNat]?).toList) := by
    refine List.map_congr_left ?_
    intro pn hpn
    rw [if_pos (hall pn hpn)]
  have hsome : ∀ pn ∈ order, (doc.pages[(pn - 1).toNat]?).isSome := by
    intro pn hpn
    have h := hall pn hpn
    rw [List.getElem?_eq_getElem (by omega)]
    rfl
  have hpages : order.foldl (fun ps pn =>
      if 1 ≤ pn ∧ pn ≤ (doc.pages.length : Int) then
        ps ++ (doc.pages[(pn - 1).toNat]?).toList
      else ps) [] =
      (order.map (fun pn => (doc.pages[(pn - 1).toNat]?).toList)).flatten := by
    rw [hstep, foldl_append_join, List.nil_append, hmap]
  have hlen := flatten_toList_length (f := fun pn => doc.pages[(pn - 1).toNat]?) order hsome
  rw [hpages]
  refine ⟨PDFDoc.mk ((order.map (fun pn => (doc.pages[(pn - 1).toNat]?).toList)).flatten),
    ?_, ?_, ?_⟩
  · unfold saveDoc
    rw [if_neg ?_]
    show ¬ ((order.map (fun pn => (doc.pages[(pn - 1).toNat]?).toList)).flatten.length < 1)
    rw [hlen]
    have := List.length_pos.mpr hne
    omega
  · exact hlen
  · intro k pn hk
    exact flatten_toList_getElem order k pn hsome hk

/-- C3 (witness): `rearrange(D, [3,1,2])` on the 3-page document yields a
3-page document whose page 1 is original page 3. -/
theorem claim3_witness :
    ∃ d, PDFEditor.rearrange_pages docThree [3, 1, 2] = .ok d ∧
      d.pages.length = 3 ∧ d.pages[0]? = docThree.pages[2]? := by
  obtain ⟨d, h1, h2, h3⟩ := claim3_rearrange_index_correct docThree [3, 1, 2]
    (by decide) (by decide)
  refine ⟨d, h1, by simpa using h2, by simpa using h3 0 3 rfl⟩

/-- C3 (counterexample): on a 1-page document, `rearrange(D, [1, 2])` does
not fail: the out-of-range entry 2 is skipped, and the output has 1 page,
not `len(newOrder) = 2`. -/
theorem claim3_counterexample :
    PDFEditor.rearrange_pages docOne [1, 2] = .ok docOne ∧
    docOne.pages.length ≠ ([1, 2] : List Int).length := by
  decide

/-- C4 (amended): `merge_pdfs` concatenates the input page sequences in
input order, so the output page count is the sum of the input page counts,
whenever that sum is positive.  An empty input sequence (and more generally
a zero total page count) is not rejected by a dedicated `EmptyInput` check:
it reaches the serializer, which fails with its own zero-pages error. -/
theorem claim4_merge_concatenates (docs : List PDFDoc)
    (h : 0 < (docs.map (fun d => d.pages.length)).sum) :
    ∃ m, PDFEditor.merge_pdfs docs = .ok m ∧
      m.pages = (docs.map (fun d => d.pages)).flatten ∧
      m.pages.length = (docs.map (fun d => d.pages.length)).sum := by
  unfold PDFEditor.merge_pdfs
  have hpages : docs.foldl (fun ps d => ps ++ d.pages) [] =
      (docs.map (fun d => d.pages)).flatten := by
    rw [foldl_append_join, List.nil_append]
  have hlen : ((docs.map (fun d => d.pages)).flatten).length =
      (docs.map (fun d => d.pages.length)).sum := by
    rw [List.length_flatten, List.map_map]
    rfl
  rw [hpages]
  refine ⟨PDFDoc.mk ((docs.map (fun d => d.pages)).flatten), ?_, rfl, hlen⟩
  unfold saveDoc
  rw [if_neg ?_]
  show ¬ ((docs.map (fun d => d.pages)).flatten.length < 1)
  rw [hlen]
  omega

/-- C4 (witness): merging a 1-page and a 2-page document yields 3 pages in
input order. -/
theorem claim4_witness :
    ∃ m, PDFEditor.merge_pdfs [docOne, docTwo] = .ok m ∧ m.pages.length = 3 := by
  obtain ⟨m, h1, _, h3⟩ := claim4_merge_concatenates [docOne, docTwo] (by decide)
  exact ⟨m, h1, by simpa using h3⟩

/-- C4 (counterexample): `merge_pdfs []` does fail, but with the
serializer's zero-pages error, not with `EmptyInput` — the code has no
empty-input check. -/
theorem claim4_counterexample :
    PDFEditor.merge_pdfs [] = .error .saveZeroPages ∧
    PdfError.saveZeroPages ≠ PdfError.emptyInput := by
  decide

/-- `remove_password` on an encrypted document with an authenticating
password strips the encryption. -/
theorem remove_password_auth (pages : List Page) (e : EncState) (pwd : String)
    (hp : 0 < pages.length) (hauth : pwd = e.userPw ∨ pwd = e.ownerPw) :
    PDFSecurity.remove_password ⟨pages, some e⟩ pwd =
      .ok ⟨⟨pages, none⟩, "Password removed successfully"⟩ := by
  simp only [PDFSecurity.remove_password]
  rw [if_pos hauth, if_neg (by omega)]

/-- `remove_password` on an encrypted document with a password matching
neither slot raises "Incorrect password provided". -/
theorem remove_password_wrong (pages : List Page) (e : EncState) (pwd : String)
    (hauth : ¬ (pwd = e.userPw ∨ pwd = e.ownerPw)) :
    PDFSecurity.remove_password ⟨pages, some e⟩ pwd = .error .incorrectPassword := by
  simp only [PDFSecurity.remove_password]
  rw [if_neg hauth]

/-- C5 (confirmed): protecting an unencrypted non-empty document with a user
password and no owner password stores the user password in both slots
(owner defaults to user); removing with the same password succeeds and
yields an unencrypted document with the same pages; removing with any other
password fails with the incorrect-password error. -/
theorem claim5_encryption_roundtrip (doc : SecDoc) (pw wrong : String)
    (perms : Option (List String)) (h0 : doc.encryption = none)
    (h1 : 0 < doc.pages.length) (hw : wrong ≠ pw) :
    ∃ r, PDFSecurity.add_password doc pw none "AES_256" perms = .ok r ∧
      (∃ e, r.doc.encryption = some e ∧ e.ownerPw = pw ∧ e.userPw = pw ∧
        e.method = EncMethod.aes256) ∧
      (∃ u, PDFSecurity.remove_password r.doc pw = .ok u ∧
        u.doc.encryption = none ∧ u.doc.pages = doc.pages) ∧
      PDFSecurity.remove_password r.doc wrong = .error .incorrectPassword := by
  have hmethod : (PDFSecurity.encryption_methods.lookup "AES_256").getD EncMethod.aes256 =
      EncMethod.aes256 := by decide
  have hadd : PDFSecurity.add_password doc pw none "AES_256" perms =
      .ok ⟨⟨doc.pages, some ⟨EncMethod.aes256, pw, pw,
          ((perms.getD ["print", "copy", "annotate"]).foldl (fun acc perm =>
            match PDFSecurity.permission_flags.lookup perm with
            | some f => acc ||| f
            | none => acc) 0)⟩⟩, "AES_256", perms.getD ["print", "copy", "annotate"]⟩ := by
    unfold PDFSecurity.add_password
    rw [h0]
    simp only [Option.isSome_none, Bool.false_eq_true, if_false, Option.getD_none, hmethod]
    rw [if_neg (by omega)]
  refine ⟨_, hadd, ⟨_, rfl, rfl, rfl, rfl⟩,
    ⟨_, remove_password_auth doc.pages _ pw h1 (Or.inl rfl), rfl, rfl⟩,
    remove_password_wrong doc.pages _ wrong ?_⟩
  rintro (h | h) <;> exact hw h

/-- C5 (witness): the round trip at `"pw123"` / `"wrongpw"` with the
`{print, copy}` permission set on the concrete one-page document. -/
theorem claim5_witness :
    ∃ r, PDFSecurity.add_password secDocOne "pw123" none "AES_256"
        (some ["print", "copy"]) = .ok r ∧
      (∃ e, r.doc.encryption = some e ∧ e.ownerPw = "pw123" ∧ e.userPw = "pw123" ∧
        e.method = EncMethod.aes256) ∧
      (∃ u, PDFSecurity.remove_password r.doc "pw123" = .ok u ∧
        u.doc.encryption = none ∧ u.doc.pages = secDocOne.pages) ∧
      PDFSecurity.remove_password r.doc "wrongpw" = .error .incorrectPassword :=
  claim5_encryption_roundtrip secDocOne "pw123" "wrongpw" (some ["print", "copy"])
    rfl (by decide) (by decide)

/-- C6 (confirmed): the watermark output is independent of the opacity
parameter — `add_watermark` and `add_watermark_with_preview` produce
identical results for any two opacities — and the operator each page
receives is the fully opaque gray `(0.7, 0.7, 0.7)` centered text of
`watermarkOp`, appended to the page's existing operators. -/
theorem claim6_watermark_opacity_ignored (doc : PDFDoc) (text : String)
    (pages : List Int) (o1 o2 fs : ℚ) (rot : Int) :
    PDFEditor.add_watermark doc text o1 fs rot =
      PDFEditor.add_watermark doc text o2 fs rot ∧
    PDFEditor.add_watermark_with_preview doc text pages o1 fs rot =
      PDFEditor.add_watermark_with_preview doc text pages o2 fs rot ∧
    ∀ d, PDFEditor.add_watermark doc text o1 fs rot = .ok d →
      ∀ j : Nat, d.pages[j]? = (doc.pages[j]?).map (fun p =>
        { p with ops := p.ops ++ [PDFEditor.watermarkOp p text fs rot] }) := by
  refine ⟨rfl, rfl, ?_⟩
  intro d hd j
  unfold PDFEditor.add_watermark saveDoc at hd
  split at hd
  · cases hd
  · cases hd
    show ((List.range doc.pages.length).foldl (fun ps page_num =>
      updateAt ps page_num (fun p =>
        { p with ops := p.ops ++ [PDFEditor.watermarkOp p text fs rot] }))
      doc.pages)[j]? = _
    rw [List.range_eq_range']
    have hchar := foldl_updateAt_range
      (fun _ (p : Page) => { p with ops := p.ops ++ [PDFEditor.watermarkOp p text fs rot] })
      doc.pages.length 0 doc.pages j
    rcases Nat.lt_or_ge j doc.pages.length with hj | hj
    · rw [hchar, if_pos ⟨Nat.zero_le j, by omega⟩]
    · rw [hchar, if_neg (by omega), List.getElem?_eq_none (by omega)]
      rfl

/-- C6 (witness): concrete instance — opacity 0.1 and 0.9 give identical
output on the one-page document, and the page receives the gray watermark
operator. -/
theorem claim6_witness :
    PDFEditor.add_watermark docOne "W" (1/10) 50 45 =
      PDFEditor.add_watermark docOne "W" (9/10) 50 45 ∧
    ({ pages := [{ pageA with ops := [PDFEditor.watermarkOp pageA "W" 50 45] }] } :
        PDFDoc).pages[0]? =
      (docOne.pages[0]?).map (fun p =>
        { p with ops := p.ops ++ [PDFEditor.watermarkOp p "W" 50 45] }) := by
  obtain ⟨h1, _, h3⟩ := claim6_watermark_opacity_ignored docOne "W" [] (1/10) (9/10) 50 45
  exact ⟨h1, h3 _ rfl 0⟩

/-- `roundHalfEven` returns the floor or the floor plus one. -/
theorem roundHalfEven_mem (q : ℚ) :
    roundHalfEven q = ⌊q⌋ ∨ roundHalfEven q = ⌊q⌋ + 1 := by
  unfold roundHalfEven
  split_ifs <;> simp

/-- C7 (amended): on a parseable input, `compress_pdf` reports exactly
`round2((1 - compressedSize/originalSize) * 100)` with no clamping — in
particular the ratio is strictly negative whenever the size grows by at
least 0.5% — and on the empty byte string (`originalSize == 0`) it fails
fast, but at `fitz.open` with a parse error, not with `InvalidParameter`;
the division is never reached. -/
theorem claim7_compress_ratio (io : FitzCompressor) (fileBytes : List Nat) (level : String)
    (h : io.parseOk fileBytes = true) :
    (∃ s, PDFSecurity.compress_pdf io fileBytes level = .ok s ∧
      s.original_size = fileBytes.length ∧
      s.compressed_size = (io.compressOut level fileBytes).length ∧
      s.compression_ratio =
        round2 ((1 - (s.compressed_size : ℚ) / (s.original_size : ℚ)) * 100) ∧
      (201 * s.original_size ≤ 200 * s.compressed_size → s.compression_ratio < 0)) ∧
    PDFSecurity.compress_pdf io [] level = .error PdfError.corruptDocument := by
  constructor
  · have hne : fileBytes ≠ [] := by
      intro hempty
      rw [hempty, io.parse_empty_fails] at h
      cases h
    have hlen : 0 < fileBytes.length := List.length_pos.mpr hne
    have hok : PDFSecurity.compress_pdf io fileBytes level = .ok
        ⟨fileBytes.length, (io.compressOut level fileBytes).length,
          round2 ((1 - ((io.compressOut level fileBytes).length : ℚ) /
            (fileBytes.length : ℚ)) * 100), level⟩ := by
      unfold PDFSecurity.compress_pdf
      rw [h, if_neg (by simp), if_neg (by omega)]
    refine ⟨_, hok, rfl, rfl, rfl, ?_⟩
    intro hc
    show round2 ((1 - ((io.compressOut level fileBytes).length : ℚ) /
      (fileBytes.length : ℚ)) * 100) < 0
    have ho : (0 : ℚ) < (fileBytes.length : ℚ) := by exact_mod_cast hlen
    have hcast : (201 : ℚ) * (fileBytes.length : ℚ) ≤
        200 * ((io.compressOut level fileBytes).length : ℚ) := by exact_mod_cast hc
    have hdiv : (201 : ℚ) / 200 ≤
        ((io.compressOut level fileBytes).length : ℚ) / (fileBytes.length : ℚ) := by
      rw [div_le_div_iff₀ (by norm_num) ho]
      linarith
    have h50 : ((1 - ((io.compressOut level fileBytes).length : ℚ) /
        (fileBytes.length : ℚ)) * 100) * 100 ≤ -50 := by linarith
    have hfl : ⌊((1 - ((io.compressOut level fileBytes).length : ℚ) /
        (fileBytes.length : ℚ)) * 100) * 100⌋ ≤ -50 := by
      have hmono := Int.floor_le_floor h50
      simpa using hmono
    have hrle : roundHalfEven (((1 - ((io.compressOut level fileBytes).length : ℚ) /
        (fileBytes.length : ℚ)) * 100) * 100) ≤ -49 := by
      rcases roundHalfEven_mem (((1 - ((io.compressOut level fileBytes).length : ℚ) /
        (fileBytes.length : ℚ)) * 100) * 100) with hr | hr <;> omega
    unfold round2
    refine div_neg_of_neg_of_pos ?_ (by norm_num)
    have : ((roundHalfEven (((1 - ((io.compressOut level fileBytes).length : ℚ) /
        (fileBytes.length : ℚ)) * 100) * 100) : Int) : ℚ) ≤ ((-49 : Int) : ℚ) := by
      exact_mod_cast hrle
    calc ((roundHalfEven (((1 - ((io.compressOut level fileBytes).length : ℚ) /
          (fileBytes.length : ℚ)) * 100) * 100) : Int) : ℚ)
        ≤ ((-49 : Int) : ℚ) := this
      _ < 0 := by norm_num
  · unfold PDFSecurity.compress_pdf
    rw [io.parse_empty_fails, if_pos rfl]

/-- C7 (witness): doubling "compression" on a 1-byte input yields a strictly
negative reported ratio, and the empty input fails with the parse error. -/
theorem claim7_witness :
    (∃ s, PDFSecurity.compress_pdf exCompressor [7] "low" = .ok s ∧
      s.compression_ratio < 0) ∧
    PDFSecurity.compress_pdf exCompressor [] "low" = .error PdfError.corruptDocument := by
  obtain ⟨⟨s, h1, h2, h3, _, h5⟩, h6⟩ := claim7_compress_ratio exCompressor [7] "low" rfl
  refine ⟨⟨s, h1, h5 ?_⟩, h6⟩
  rw [h2, h3]
  decide

/-- C7 (counterexample): with `originalSize == 0` (empty byte string) the
operation fails with the wrapped parse error from `fitz.open`, not with
`InvalidParameter` as claimed. -/
theorem claim7_counterexample :
    PDFSecurity.compress_pdf exCompressor [] "medium" = .error PdfError.corruptDocument ∧
    PdfError.corruptDocument ≠ PdfError.invalidParameter := by
  decide

/-- The permission fold of `add_password` equals the same fold restricted to
the recognized names: unknown names contribute nothing. -/
theorem permFold_eq_filter :
    ∀ (perms : List String) (acc : Nat),
      perms.foldl (fun acc perm =>
        match PDFSecurity.permission_flags.lookup perm with
        | some f => acc ||| f
        | none => acc) acc =
      (perms.filter (fun p => (PDFSecurity.permission_flags.lookup p).isSome)).foldl
        (fun acc p => acc ||| (PDFSecurity.permission_flags.lookup p).getD 0) acc := by
  intro perms
  induction perms with
  | nil => intro acc; rfl
  | cons p ps ih =>
    intro acc
    rw [List.foldl_cons, List.filter_cons]
    cases hp : PDFSecurity.permission_flags.lookup p with
    | none => simp [hp, ih]
    | some f => simp [hp, ih]

/-- C8 (amended): a permission name outside `permission_flags` is NOT
rejected: `add_password` succeeds, keeps the full requested name list in its
metadata, and builds the bitmask from the recognized names only — the
unknown name is silently dropped from the bitmask. -/
theorem claim8_unknown_permission_silently_ignored (doc : SecDoc) (pw : String)
    (opw : Option String) (method : String) (perms : List String)
    (h0 : doc.encryption = none) (h1 : 0 < doc.pages.length) :
    ∃ r, PDFSecurity.add_password doc pw opw method (some perms) = .ok r ∧
      r.permissions = perms ∧
      ∃ e, r.doc.encryption = some e ∧
        e.perms = (perms.filter (fun p =>
            (PDFSecurity.permission_flags.lookup p).isSome)).foldl
          (fun acc p => acc ||| (PDFSecurity.permission_flags.lookup p).getD 0) 0 := by
  have hadd : PDFSecurity.add_password doc pw opw method (some perms) = .ok
      ⟨⟨doc.pages, some ⟨(PDFSecurity.encryption_methods.lookup method).getD EncMethod.aes256,
        pw, opw.getD pw, perms.foldl (fun acc perm =>
          match PDFSecurity.permission_flags.lookup perm with
          | some f => acc ||| f
          | none => acc) 0⟩⟩, method, perms⟩ := by
    unfold PDFSecurity.add_password
    rw [h0]
    simp only [Option.isSome_none, Bool.false_eq_true, if_false, Option.getD_some]
    rw [if_neg (by omega)]
  exact ⟨_, hadd, rfl, _, rfl, permFold_eq_filter perms 0⟩

/-- C8 (witness): requesting `{print, bogus}` succeeds and yields the
bitmask 4 — only the `print` bit. -/
theorem claim8_witness :
    ∃ r, PDFSecurity.add_password secDocOne "pw" none "AES_256"
        (some ["print", "bogus"]) = .ok r ∧
      ∃ e, r.doc.encryption = some e ∧ e.perms = 4 := by
  obtain ⟨r, h1, _, e, h3, h4⟩ := claim8_unknown_permission_silently_ignored
    secDocOne "pw" none "AES_256" ["print", "bogus"] rfl (by decide)
  refine ⟨r, h1, e, h3, ?_⟩
  rw [h4]
  decide

/-- C8 (counterexample): `"bogus"` is not a recognized permission name, yet
`add_password` succeeds (no `InvalidParameter`), encoding only the `print`
bit — the unknown name is silently dropped from the bitmask. -/
theorem claim8_counterexample :
    PDFSecurity.add_password secDocOne "pw" none "AES_256" (some ["print", "bogus"]) =
      .ok ⟨⟨[pageA], some ⟨EncMethod.aes256, "pw", "pw", 4⟩⟩, "AES_256",
        ["print", "bogus"]⟩ ∧
    PDFSecurity.permission_flags.lookup "bogus" = none := by
  decide

/-- C9 (confirmed): an algorithm name outside `{md5, sha1, sha256, sha512}`
does not make `generate_file_hash` fail — it is silently replaced by
`sha256` and the sha256 digest of the bytes is returned; for each
recognized name the result is the corresponding digest of the input bytes
(a pure function of bytes and algorithm). -/
theorem claim9_hash_fallback (H : HashLib) (content : List Nat) (name alg : String)
    (h : ¬ (alg = "md5" ∨ alg = "sha1" ∨ alg = "sha256" ∨ alg = "sha512")) :
    PDFSecurity.generate_file_hash H content name alg =
      PDFSecurity.generate_file_hash H content name "sha256" ∧
    (PDFSecurity.generate_file_hash H content name alg).hash = H.sha256 content ∧
    (PDFSecurity.generate_file_hash H content name alg).algorithm = "sha256" ∧
    (PDFSecurity.generate_file_hash H content name "md5").hash = H.md5 content ∧
    (PDFSecurity.generate_file_hash H content name "sha1").hash = H.sha1 content ∧
    (PDFSecurity.generate_file_hash H content name "sha256").hash = H.sha256 content ∧
    (PDFSecurity.generate_file_hash H content name "sha512").hash = H.sha512 content := by
  have hsub : PDFSecurity.generate_file_hash H content name alg =
      PDFSecurity.generate_file_hash H content name "sha256" := by
    unfold PDFSecurity.generate_file_hash
    rw [if_neg h]
    rfl
  exact ⟨hsub, by rw [hsub]; rfl, by rw [hsub]; rfl, rfl, rfl, rfl, rfl⟩

/-- C9 (witness): `"crc32"` is silently replaced by sha256 on concrete
input. -/
theorem claim9_witness :
    PDFSecurity.generate_file_hash exHashLib [1, 2] "f.pdf" "crc32" =
      PDFSecurity.generate_file_hash exHashLib [1, 2] "f.pdf" "sha256" ∧
    (PDFSecurity.generate_file_hash exHashLib [1, 2] "f.pdf" "crc32").hash = "SHA256" ∧
    (PDFSecurity.generate_file_hash exHashLib [1, 2] "f.pdf" "crc32").algorithm =
      "sha256" := by
  obtain ⟨h1, h2, h3, _⟩ := claim9_hash_fallback exHashLib [1, 2] "f.pdf" "crc32" (by decide)
  exact ⟨h1, h2, h3⟩

/-- The page stamped by `add_page_numbers` at offset `j` carries the decimal
rendering of `startNumber + j` at the anchor chosen by `position`. -/
theorem add_page_numbers_getElem (doc : PDFDoc) (position : String) (fs : ℚ)
    (start : Int) (d : PDFDoc)
    (hd : PDFEditor.add_page_numbers doc position fs start = .ok d) (j : Nat) :
    d.pages[j]? = (doc.pages[j]?).map (fun p =>
      { p with ops := p.ops ++
          [ContentOp.text (PDFEditor.pageNumberXY position p.width p.height).1
            (PDFEditor.pageNumberXY position p.width p.height).2
            (toString ((j : Int) + start)) fs ⟨0, 0, 0⟩ "helv" 0] }) := by
  unfold PDFEditor.add_page_numbers saveDoc at hd
  split at hd
  · cases hd
  · cases hd
    show ((List.range doc.pages.length).foldl (fun ps page_num =>
        updateAt ps page_num (fun p =>
          let xy := PDFEditor.pageNumberXY position p.width p.height
          { p with ops := p.ops ++
              [ContentOp.text xy.1 xy.2 (toString ((page_num : Int) + start))
                fs ⟨0, 0, 0⟩ "helv" 0] })) doc.pages)[j]? = _
    rw [List.range_eq_range']
    have hchar := foldl_updateAt_range
      (fun i (p : Page) =>
        let xy := PDFEditor.pageNumberXY position p.width p.height
        { p with ops := p.ops ++
            [ContentOp.text xy.1 xy.2 (toString ((i : Int) + start)) fs ⟨0, 0, 0⟩ "helv" 0] })
      doc.pages.length 0 doc.pages j
    rcases Nat.lt_or_ge j doc.pages.length with hj | hj
    · rw [hchar, if_pos ⟨Nat.zero_le j, by omega⟩]
    · rw [hchar, if_neg (by omega), List.getElem?_eq_none (by omega)]
      rfl

/-- C10 (confirmed): an unrecognized `position` string does not make
`add_page_numbers` fail — it places the number at the bottom-right
coordinates (identical output to `"bottom_right"`), and the number stamped
on the page at 0-indexed offset `j` is the decimal rendering of
`startNumber + j`. -/
theorem claim10_unknown_position_bottom_right (doc : PDFDoc) (pos : String) (fs : ℚ)
    (start : Int)
    (h : pos ∉ ["bottom_right", "bottom_left", "top_right", "top_left", "bottom_center"]) :
    PDFEditor.add_page_numbers doc pos fs start =
      PDFEditor.add_page_numbers doc "bottom_right" fs start ∧
    ∀ d, PDFEditor.add_page_numbers doc pos fs start = .ok d → ∀ j : Nat,
      d.pages[j]? = (doc.pages[j]?).map (fun p =>
        { p with ops := p.ops ++ [ContentOp.text (p.width - 50) (p.height - 30)
            (toString ((j : Int) + start)) fs ⟨0, 0, 0⟩ "helv" 0] }) := by
  simp only [List.mem_cons, not_or, List.not_mem_nil] at h
  obtain ⟨h1, h2, h3, h4, h5, -⟩ := h
  have hxy : PDFEditor.pageNumberXY pos = PDFEditor.pageNumberXY "bottom_right" := by
    funext w ht
    unfold PDFEditor.pageNumberXY
    rw [if_neg h1, if_neg h2, if_neg h3, if_neg h4, if_neg h5, if_pos rfl]
  constructor
  · unfold PDFEditor.add_page_numbers
    rw [hxy]
  · intro d hd j
    have hj := add_page_numbers_getElem doc pos fs start d hd j
    rw [hxy] at hj
    exact hj

/-- C10 (witness): position `"middle"` is unknown; the output equals the
bottom-right output, and page offset 0 with start number 5 is stamped
`"5"` at the bottom-right anchor. -/
theorem claim10_witness :
    PDFEditor.add_page_numbers docOne "middle" 12 5 =
      PDFEditor.add_page_numbers docOne "bottom_right" 12 5 ∧
    ({ pages := [{ pageA with ops := [ContentOp.text (pageA.width - 50)
        (pageA.height - 30) "5" 12 ⟨0, 0, 0⟩ "helv" 0] }] } : PDFDoc).pages[0]? =
      (docOne.pages[0]?).map (fun p =>
        { p with ops := p.ops ++ [ContentOp.text (p.width - 50) (p.height - 30)
            (toString ((0 : Int) + 5)) 12 ⟨0, 0, 0⟩ "helv" 0] }) := by
  obtain ⟨heq, hch⟩ := claim10_unknown_position_bottom_right docOne "middle" 12 5 (by decide)
  exact ⟨heq, hch _ rfl 0⟩

end PdfApp
